import Mathlib

/-
Verification of the itk-dreg block coordination and transform-fusion engine.

The Python sources under src/itk_dreg are shallowly embedded below.
Real-valued quantities (physical points, continuous indices, spacings) are
modelled over the rationals; NumPy and ITK floating-point arithmetic is
treated as exact arithmetic.  ITK library primitives used by the code
(ImageRegion Crop and IsInside, index/physical coordinate transforms) are
embedded following their documented ITK 5 semantics.  ITK images store a
precomputed inverse of the direction matrix; the embedding carries that
inverse explicitly in the image metadata record.
-/

namespace ItkDreg

/-- Physical points, continuous indices and 3-vectors, modelled over rationals. -/
abbrev Vec3 := Fin 3 → ℚ

/-- 3x3 matrices, as used for ITK image direction cosines. -/
abbrev Mat3 := Fin 3 → Fin 3 → ℚ

/-- Matrix-vector product for the 3x3 case. -/
def mat3MulVec (m : Mat3) (v : Vec3) : Vec3 := fun i => ∑ j, m i j * v j

/-- Diagonal 3x3 matrix. -/
def diag3 (d : Vec3) : Mat3 := fun i j => if j = i then d i else 0

/-- Python exception kinds raised by the embedded code. -/
inductive PyErr where
  | valueError
  | typeError
  deriving DecidableEq, Repr

instance {ε α : Type} [DecidableEq ε] [DecidableEq α] : DecidableEq (Except ε α) :=
  fun x y =>
    match x, y with
    | .ok a, .ok b =>
        if h : a = b then .isTrue (by rw [h]) else .isFalse (by simp [h])
    | .error a, .error b =>
        if h : a = b then .isTrue (by rw [h]) else .isFalse (by simp [h])
    | .ok _, .error _ => .isFalse (fun h => Except.noConfusion h)
    | .error _, .ok _ => .isFalse (fun h => Except.noConfusion h)

/-- Index of the first maximal entry of a 3-vector, as computed by np.argmax. -/
def argmax3 (v : Vec3) : Fin 3 :=
  if v 1 ≤ v 0 ∧ v 2 ≤ v 0 then 0 else if v 2 ≤ v 1 then 1 else 2

/-- Index of the first minimal entry of a 3-vector, as computed by np.argmin. -/
def argmin3 (v : Vec3) : Fin 3 :=
  if v 0 ≤ v 1 ∧ v 0 ≤ v 2 then 0 else if v 1 ≤ v 2 then 1 else 2

/-- Python int() conversion of a float: truncation toward zero. -/
def pyInt (q : ℚ) : ℤ := if 0 ≤ q then ⌊q⌋ else ⌈q⌉

/-- A 2x3 bounds array: row 0 and row 1, three entries each.  Used for both
"block regions" (voxel bounds) and "physical regions" (physical bounds) in
src/itk_dreg/block/convert.py. -/
structure Arr2x3 where
  r0 : Vec3
  r1 : Vec3
  deriving DecidableEq

/-- Per-axis minimum of the two rows: np.min(arr, axis=0). -/
def Arr2x3.minAxis (b : Arr2x3) : Vec3 := fun i => min (b.r0 i) (b.r1 i)

/-- Per-axis maximum of the two rows: np.max(arr, axis=0). -/
def Arr2x3.maxAxis (b : Arr2x3) : Vec3 := fun i => max (b.r0 i) (b.r1 i)

/-- itk.ImageRegion[3]: a start index and a size per axis.  Sizes are carried
as integers; ITK stores them unsigned but all embedded code manipulates them
through signed arithmetic. -/
structure ImageRegion3 where
  index : Fin 3 → ℤ
  size : Fin 3 → ℤ
  deriving DecidableEq

/-- ITK GetUpperIndex: the last index contained in the region. -/
def ImageRegion3.upperIndex (r : ImageRegion3) : Fin 3 → ℤ :=
  fun i => r.index i + r.size i - 1

/-- ITK ImageRegion::Crop(region): if the two regions overlap on every axis,
shrink self to the intersection; otherwise leave self unchanged.  Mirrors
itkImageRegion.hxx. -/
def ImageRegion3.crop (self other : ImageRegion3) : ImageRegion3 :=
  let cropPossible :=
    ∀ i : Fin 3, self.index i < other.index i + other.size i ∧
      other.index i < self.index i + self.size i
  if cropPossible then
    let newIndex : Fin 3 → ℤ := fun i => max (self.index i) (other.index i)
    { index := newIndex
      size := fun i =>
        min (self.index i + self.size i) (other.index i + other.size i) - newIndex i }
  else self

/-- ITK ImageRegion::IsInside(otherRegion): the other region starts no earlier
and ends no later than self on every axis; a region with any zero size is
never inside (ITK 5 documented behavior). -/
def ImageRegion3.isInside (self other : ImageRegion3) : Bool :=
  decide (∀ i : Fin 3,
    self.index i ≤ other.index i ∧
    other.index i + other.size i - 1 ≤ self.index i + self.size i - 1 ∧
    other.size i ≠ 0)

/-- Spatial metadata of an itk.Image: origin, spacing, direction cosines and
the inverse direction matrix that ITK precomputes in SetDirection. -/
structure ImageGeom where
  origin : Vec3
  spacing : Vec3
  direction : Mat3
  dirInv : Mat3

/-- ITK TransformContinuousIndexToPhysicalPoint:
p = origin + direction * diag(spacing) * index. -/
def ImageGeom.contIndexToPhysical (g : ImageGeom) (idx : Vec3) : Vec3 :=
  fun i => g.origin i + mat3MulVec g.direction (fun j => g.spacing j * idx j) i

/-- ITK TransformPhysicalPointToContinuousIndex:
index = diag(spacing)⁻¹ * direction⁻¹ * (p - origin). -/
def ImageGeom.physicalToContIndex (g : ImageGeom) (p : Vec3) : Vec3 :=
  fun i => mat3MulVec g.dirInv (fun j => p j - g.origin j) i / g.spacing i

/-- ITK TransformIndexToPhysicalPoint at an integer voxel index. -/
def ImageGeom.indexToPhysical (g : ImageGeom) (idx : Fin 3 → ℤ) : Vec3 :=
  g.contIndexToPhysical (fun i => (idx i : ℚ))

/-- Metadata of an itk.Image: geometry plus the largest possible region. -/
structure ImageMeta where
  geom : ImageGeom
  largest : ImageRegion3

end ItkDreg

namespace ItkDreg

/-! Embedding of src/itk_dreg/block/convert.py. -/

/-- estimate_bounding_box: map the 8 corners of a physical box through a
transform and return the axis-aligned bounding box of the images.  The
corners are the itertools.product combinations of the per-axis row choices;
the per-axis minimum and maximum are taken over all 8 transformed corners
(folding from one of them, which leaves the min and max unchanged). -/
def estimate_bounding_box (pr : Arr2x3) (t : Vec3 → Vec3) : Arr2x3 :=
  let corners : List Vec3 :=
    [t ![pr.r0 0, pr.r0 1, pr.r0 2],
     t ![pr.r0 0, pr.r0 1, pr.r1 2],
     t ![pr.r0 0, pr.r1 1, pr.r0 2],
     t ![pr.r0 0, pr.r1 1, pr.r1 2],
     t ![pr.r1 0, pr.r0 1, pr.r0 2],
     t ![pr.r1 0, pr.r0 1, pr.r1 2],
     t ![pr.r1 0, pr.r1 1, pr.r0 2],
     t ![pr.r1 0, pr.r1 1, pr.r1 2]]
  { r0 := fun i => (corners.map (fun p => p i)).foldr min
      (t ![pr.r0 0, pr.r0 1, pr.r0 2] i)
    r1 := fun i => (corners.map (fun p => p i)).foldr max
      (t ![pr.r0 0, pr.r0 1, pr.r0 2] i) }

/-- block_to_physical_region: sort the voxel bounds, shift by half a voxel,
map each row to physical space, then either sort per axis (no transform) or
take the transformed bounding box. -/
def block_to_physical_region (block_region : Arr2x3) (ref : ImageGeom)
    (transform : Option (Vec3 → Vec3)) : Arr2x3 :=
  let sorted : Arr2x3 := ⟨block_region.minAxis, block_region.maxAxis⟩
  let adjusted : Arr2x3 :=
    ⟨fun i => sorted.r0 i - 1/2, fun i => sorted.r1 i - 1/2⟩
  let physical : Arr2x3 :=
    ⟨ref.contIndexToPhysical adjusted.r0, ref.contIndexToPhysical adjusted.r1⟩
  match transform with
  | none => ⟨physical.minAxis, physical.maxAxis⟩
  | some t => estimate_bounding_box physical t

/-- physical_to_block_region: map each physical row to a continuous index,
sort per axis, and undo the half-voxel shift. -/
def physical_to_block_region (physical_region : Arr2x3) (ref : ImageGeom) :
    Arr2x3 :=
  let block : Arr2x3 :=
    ⟨ref.physicalToContIndex physical_region.r0,
     ref.physicalToContIndex physical_region.r1⟩
  ⟨fun i => block.minAxis i + 1/2, fun i => block.maxAxis i + 1/2⟩

/-- block_to_image_region: truncate the bounds to integers, using the lower
row as the region index and the upper row minus one as the upper index. -/
def block_to_image_region (block_region : Arr2x3) : ImageRegion3 :=
  let lower : Fin 3 → ℤ := fun i => pyInt (block_region.minAxis i)
  let upper : Fin 3 → ℤ := fun i => pyInt (block_region.maxAxis i) - 1
  { index := lower, size := fun i => upper i - lower i + 1 }

/-- image_to_block_region: half-open voxel bounds of an itk.ImageRegion. -/
def image_to_block_region (region : ImageRegion3) : Arr2x3 :=
  ⟨fun i => (region.index i : ℚ), fun i => (region.upperIndex i + 1 : ℚ)⟩

/-- image_to_physical_region from src/itk_dreg/block/convert.py. -/
def image_to_physical_region (region : ImageRegion3) (ref : ImageGeom)
    (src_transform : Option (Vec3 → Vec3)) : Arr2x3 :=
  block_to_physical_region (image_to_block_region region) ref src_transform

/-- get_sample_bounds from src/itk_dreg/block/image.py: physical bounds of the
volume sampled by the largest possible region. -/
def get_sample_bounds (image : ImageMeta) (transform : Option (Vec3 → Vec3)) :
    Arr2x3 :=
  image_to_physical_region image.largest image.geom transform

/-- get_target_block_region: compose block_to_physical_region in the source
grid with physical_to_block_region in the target grid, optionally cropping the
result against the target largest possible region. -/
def get_target_block_region (block_region : Arr2x3) (src : ImageGeom)
    (target : ImageMeta) (src_transform : Option (Vec3 → Vec3))
    (crop_to_target : Bool) : Arr2x3 :=
  let target_region :=
    physical_to_block_region
      (block_to_physical_region block_region src src_transform) target.geom
  if crop_to_target then
    let image_region := (block_to_image_region target_region).crop target.largest
    image_to_block_region image_region
  else target_region

end ItkDreg

namespace ItkDreg

/-! Embedding of src/itk_dreg/reduce_dfield/transform_collection.py and of
BlockPairRegistrationResult from src/itk_dreg/base/image_block_interface.py. -/

/-- Class of a Python itk.Transform object, as seen by issubclass checks:
a subclass of itk.Transform[itk.D,3,3], of itk.Transform[itk.F,3,3], or
neither. -/
inductive TransformClass where
  | d33
  | f33
  | other
  deriving DecidableEq

/-- A Python itk.Transform object: its class together with the point mapping
implemented by TransformPoint. -/
structure PyTransform where
  cls : TransformClass
  map : Vec3 → Vec3

/-- Template head of a Python itk image object: itk.Image, itk.VectorImage or
some other template. -/
inductive ImageTemplateKind where
  | image
  | vectorImage
  | otherTemplate
  deriving DecidableEq

/-- A Python itk image object used as a transform-domain metadata container. -/
structure DomainImage where
  template : ImageTemplateKind
  meta : ImageMeta

/-- TransformEntry: a transform with an optional bounded domain. -/
structure TransformEntry where
  transform : PyTransform
  domain : Option DomainImage

/-- TransformCollection._bounds_contains: inclusive containment of a point in
the per-axis min/max envelope of a 2x3 bounds array. -/
def bounds_contains (bounds : Arr2x3) (pt : Vec3) : Bool :=
  decide (∀ i : Fin 3, bounds.minAxis i ≤ pt i ∧ pt i ≤ bounds.maxAxis i)

/-- MIN_WEIGHT from blend_distance_weighted_mean. -/
def MIN_WEIGHT : ℚ := 1 / 1000000000

/-- np.isclose(w, 0) with default tolerances: |w| ≤ atol = 1e-8. -/
def npIsCloseZero (w : ℚ) : Bool := |w| ≤ 1 / 100000000

/-- TransformCollection._pixel_distance_from_edge: signed voxel distance from
a point to the nearest of the lower and upper image sides along each axis. -/
def pixel_distance_from_edge (input_pt : Vec3) (domain : ImageMeta) : Vec3 :=
  let distToLower : Vec3 := fun i =>
    domain.geom.physicalToContIndex input_pt i -
      ((domain.largest.index i : ℚ) - 1/2)
  let distToUpper : Vec3 := fun i => (domain.largest.size i : ℚ) - distToLower i
  fun i => if |distToLower i| ≤ |distToUpper i| then distToLower i else distToUpper i

/-- TransformCollection._physical_distance_from_edge: minimum physical distance
to the closest domain side, with the axis along which it is attained. -/
def physical_distance_from_edge (input_pt : Vec3) (domain : ImageMeta) :
    ℚ × Fin 3 :=
  let voxelStepVecs : Mat3 := fun i j => domain.geom.direction i j * domain.geom.spacing j
  let physicalStep : Vec3 := fun i => voxelStepVecs i (argmax3 (fun j => |voxelStepVecs i j|))
  let pixelAxisDists := pixel_distance_from_edge input_pt domain
  let physicalAxisDists : Vec3 := fun i => |pixelAxisDists i * physicalStep i|
  let argMin := argmin3 (fun i => |physicalAxisDists i|)
  (physicalAxisDists argMin, argMin)

/-- TransformCollection.blend_distance_weighted_mean: weighted average of the
transformed point candidates, weighting each bounded entry by its distance to
the domain edge, unbounded entries by MIN_WEIGHT, and flooring weights that
are close to zero at MIN_WEIGHT. -/
def blend_distance_weighted_mean (input_pt : Vec3)
    (region_contributors : List TransformEntry) : Vec3 :=
  let pointCandidates := region_contributors.map (fun e => e.transform.map input_pt)
  let weights := region_contributors.map (fun e =>
    match e.domain with
    | some d => (physical_distance_from_edge input_pt d.meta).1
    | none => MIN_WEIGHT)
  let interiorWeights := weights.map (fun w => if npIsCloseZero w then MIN_WEIGHT else w)
  fun i =>
    (List.zipWith (fun w p => w * p i) interiorWeights pointCandidates).sum /
      interiorWeights.sum

/-- TransformCollection.blend_simple_mean: unweighted average of the
transformed point candidates. -/
def blend_simple_mean (input_pt : Vec3)
    (region_contributors : List TransformEntry) : Vec3 :=
  let pointCandidates := region_contributors.map (fun e => e.transform.map input_pt)
  fun i => (pointCandidates.map (fun p => p i)).sum / (pointCandidates.length : ℚ)

/-- A TransformCollection: blending method plus the entry list. -/
structure TransformCollection where
  blend_method : Vec3 → List TransformEntry → Vec3
  transform_and_domain_list : List TransformEntry

/-- TransformCollection._validate_entry raises TypeError exactly when the
transform class is neither itk.Transform[itk.D,3,3] nor
itk.Transform[itk.F,3,3], or a domain is present whose template head is
neither itk.Image nor itk.VectorImage. -/
def entryInvalid (entry : TransformEntry) : Bool :=
  decide (entry.transform.cls ≠ TransformClass.d33 ∧
    entry.transform.cls ≠ TransformClass.f33) ||
  (match entry.domain with
   | some d => decide (d.template = ImageTemplateKind.otherTemplate)
   | none => false)

/-- TransformCollection._validate_entry. -/
def validate_entry (entry : TransformEntry) : Except PyErr Unit :=
  if entryInvalid entry then .error .typeError else .ok ()

/-- TransformCollection.push: validate, then append to the entry list. -/
def TransformCollection.push (c : TransformCollection) (entry : TransformEntry) :
    Except PyErr TransformCollection :=
  match validate_entry entry with
  | .error e => .error e
  | .ok _ =>
      .ok { c with transform_and_domain_list := c.transform_and_domain_list ++ [entry] }

/-- Whether an entry contributes at a query point: its domain is absent or its
sample bounds contain the point. -/
def coversPoint (pt : Vec3) (entry : TransformEntry) : Bool :=
  match entry.domain with
  | none => true
  | some d => bounds_contains (get_sample_bounds d.meta none) pt

/-- TransformCollection.transform_point: blend over the entries whose domain
covers the point, raising ValueError when there are none. -/
def TransformCollection.transform_point (c : TransformCollection) (pt : Vec3) :
    Except PyErr Vec3 :=
  let region_contributors := c.transform_and_domain_list.filter (coversPoint pt)
  if region_contributors.isEmpty then .error .valueError
  else .ok (c.blend_method pt region_contributors)

/-- BlockRegStatus from src/itk_dreg/base/image_block_interface.py. -/
inductive BlockRegStatus where
  | success
  | failure
  deriving DecidableEq

/-- BlockPairRegistrationResult fields, after successful construction. -/
structure BlockPairRegistrationResult where
  status : BlockRegStatus
  transform : Option PyTransform
  transform_domain : Option DomainImage
  inv_transform : Option PyTransform
  inv_transform_domain : Option DomainImage

/-- Product of the sizes of the largest possible region of a domain image:
np.product(domain.GetLargestPossibleRegion().GetSize()). -/
def domainSizeProduct (d : DomainImage) : ℤ := ∏ i, d.meta.largest.size i

/-- BlockPairRegistrationResult.__init__ with its validation checks, in source
order.  Returns the constructed record or the first exception raised. -/
def mkBlockPairRegistrationResult (status : BlockRegStatus)
    (transform : Option PyTransform) (transform_domain : Option DomainImage)
    (inv_transform : Option PyTransform)
    (inv_transform_domain : Option DomainImage) :
    Except PyErr BlockPairRegistrationResult :=
  let domainNotItkImage : Option DomainImage → Bool := fun od =>
    match od with
    | some d => decide (d.template ≠ ImageTemplateKind.image)
    | none => false
  let domainZeroVolume : Option DomainImage → Bool := fun od =>
    match od with
    | some d => decide (domainSizeProduct d = 0)
    | none => false
  if decide (status = .success) && transform.isNone then .error .valueError
  else if transform.isSome && transform_domain.isNone then .error .valueError
  else if domainNotItkImage transform_domain then .error .typeError
  else if domainZeroVolume transform_domain then .error .valueError
  else if inv_transform.isSome && inv_transform_domain.isNone then .error .valueError
  else if domainNotItkImage inv_transform_domain then .error .typeError
  else if domainZeroVolume inv_transform_domain then .error .valueError
  else
    .ok { status := status, transform := transform,
          transform_domain := transform_domain, inv_transform := inv_transform,
          inv_transform_domain := inv_transform_domain }

end ItkDreg

namespace ItkDreg

/-! Concrete instances used to instantiate theorems: identity-direction image
geometries, translation transforms, and the two overlapping cube domains of
the distance-weighted blending example from
src/test/reduce_dfield/test_transform_collection.py. -/

/-- Identity direction, unit spacing, origin at zero. -/
def identityGeom : ImageGeom :=
  { origin := ![0, 0, 0], spacing := ![1, 1, 1],
    direction := ![![1, 0, 0], ![0, 1, 0], ![0, 0, 1]],
    dirInv := ![![1, 0, 0], ![0, 1, 0], ![0, 0, 1]] }

/-- Identity-direction unit-spacing geometry with origin (o,o,o). -/
def geomWithOrigin (o : ℚ) : ImageGeom := { identityGeom with origin := ![o, o, o] }

/-- itk.TranslationTransform[itk.D,3] translating by (d,d,d). -/
def translationBy (d : ℚ) : PyTransform :=
  ⟨TransformClass.d33, fun p i => p i + d⟩

/-- Axis-aligned cube domain of voxel size 4 with origin (o,o,o), described by
an itk.Image metadata object with unit spacing and identity direction. -/
def cubeDomain4 (o : ℚ) : DomainImage :=
  ⟨ImageTemplateKind.image, ⟨geomWithOrigin o, ⟨![0, 0, 0], ![4, 4, 4]⟩⟩⟩

/-- The distance-weighted blending example: translations by (1,1,1) and
(2,2,2) over size-4 cube domains at origins (0,0,0) and (1,1,1). -/
def distanceBlendExample : TransformCollection :=
  ⟨blend_distance_weighted_mean,
   [⟨translationBy 1, some (cubeDomain4 0)⟩, ⟨translationBy 2, some (cubeDomain4 1)⟩]⟩

/-- A valid transform-domain image: itk.Image template, unit cube region. -/
def unitCubeDomain : DomainImage :=
  ⟨ImageTemplateKind.image, ⟨identityGeom, ⟨![0, 0, 0], ![1, 1, 1]⟩⟩⟩

end ItkDreg

namespace ItkDreg

/-! Embedding of BlockInfo from src/itk_dreg/base/image_block_interface.py and
of the partition enumeration in src/itk_dreg/register.py with the NumPy and
dask iteration primitives it relies on. -/

/-- BlockInfo: chunk position and per-axis half-open voxel slice, in NumPy
order.  Slices are (start, stop) pairs; all slice steps are 1. -/
structure BlockInfo where
  chunk_index : List ℕ
  array_slice : List (ℕ × ℕ)
  deriving DecidableEq, Repr

/-- Cartesian product of per-axis choice lists in row-major order with the
last axis varying fastest: the enumeration order shared by itertools.product
and np.ndindex. -/
def cartProd {α : Type} : List (List α) → List (List α)
  | [] => [[]]
  | l :: ls => l.flatMap (fun x => (cartProd ls).map (x :: ·))

/-- np.ndindex over a shape tuple. -/
def ndindex (shape : List ℕ) : List (List ℕ) := cartProd (shape.map List.range)

/-- dask cached_cumsum with initial_zero: partial sums of the chunk sizes on
one axis, starting at 0. -/
def cumsum0 : List ℕ → List ℕ
  | [] => [0]
  | x :: xs => 0 :: (cumsum0 xs).map (x + ·)

/-- Per-axis slices zip(starts, shapes) from dask slices_from_chunks. -/
def axisSlices (bds : List ℕ) : List (ℕ × ℕ) :=
  List.zipWith (fun s d => (s, s + d)) (cumsum0 bds) bds

/-- dask.array.core.slices_from_chunks: the cartesian product of the per-axis
slice lists. -/
def slices_from_chunks (chunks : List (List ℕ)) : List (List (ℕ × ℕ)) :=
  cartProd (chunks.map axisSlices)

/-- iterate_block_info from src/itk_dreg/register.py: zip np.ndindex over the
chunk counts with the dask chunk slices. -/
def iterate_block_info (chunks : List (List ℕ)) : List BlockInfo :=
  ((ndindex (chunks.map List.length)).zip (slices_from_chunks chunks)).map
    (fun p => ⟨p.1, p.2⟩)

/-- Mixed-radix unranking of a row-major rank with the last axis fastest:
the chunk index of the k-th enumerated block. -/
def unrank : List ℕ → ℕ → List ℕ
  | [], _ => []
  | _ :: rest, k => k / rest.prod :: unrank rest (k % rest.prod)

/-- The voxel slice a chunk index selects on one axis: offset is the total
size of the preceding chunks. -/
def sliceAt (bds : List ℕ) (i : ℕ) : ℕ × ℕ :=
  ((bds.take i).sum, (bds.take i).sum + bds.getD i 0)

/-- dask rechunk of one axis of length n into chunks of size c. -/
def normalizeAxisChunks (n c : ℕ) : List ℕ :=
  List.replicate (n / c) c ++ (if n % c = 0 then [] else [n % c])

/-- The schedule produced by register_images before execution: the chunk
grid shape and the per-block descriptors from which the one-task-per-block
graph is built. -/
structure RegistrationSchedule where
  numblocks : List ℕ
  blockInfos : List BlockInfo
  deriving DecidableEq, Repr

/-- register_images from src/itk_dreg/register.py, up to construction of the
unexecuted task graph: read the fixed image dimension, reject anything that
is not 2-D or 3-D, then subdivide the fixed image shape into chunks and
enumerate one block descriptor per chunk.  The dask.delayed task nodes
themselves carry no further computed data beyond the descriptors. -/
def register_images (imageDimension : ℕ) (fixedShape : List ℕ)
    (fixed_chunk_size : Option (List ℕ)) : Except PyErr RegistrationSchedule :=
  if imageDimension ≠ 2 ∧ imageDimension ≠ 3 then .error .valueError
  else
    let chunk_size := fixed_chunk_size.getD (List.replicate imageDimension 256)
    let chunks := List.zipWith normalizeAxisChunks fixedShape chunk_size
    .ok ⟨chunks.map List.length, iterate_block_info chunks⟩

end ItkDreg

namespace ItkDreg

/-! Embedding of register_subimage from src/itk_dreg/register.py. -/

/-- The uniform failure result built by register_subimage when no
default_result is supplied. -/
def uniformFailureResult : BlockPairRegistrationResult :=
  ⟨.failure, none, none, none, none⟩

/-- Outcome of calling the external block pair registration callback: it may
raise, return an object that is not a BlockPairRegistrationResult, or return
a result. -/
inductive CallbackOutcome where
  | raisesException
  | returnsNonResult
  | returns (r : BlockPairRegistrationResult)

/-- np.flip of a NumPy-order length-3 list into an ITK-order index tuple. -/
def regionTupleOfNumpy (vals : List ℤ) : Fin 3 → ℤ := fun i => vals.reverse.getD i 0

/-- Resolution of the overlap_factors default: [0] * block_info.ndim, where
the ndim property raises ValueError on a chunk/slice length mismatch. -/
def overlapResolve (b : BlockInfo) (overlap_factors : Option (List ℚ)) :
    Except PyErr (List ℚ) :=
  match overlap_factors with
  | some l => .ok l
  | none =>
      if b.chunk_index.length = b.array_slice.length then
        .ok (List.replicate b.array_slice.length 0)
      else .error .valueError

/-- Per-axis slice starts of a block, in NumPy order. -/
def blockStartIndex (b : BlockInfo) : List ℤ := b.array_slice.map (fun s => (s.1 : ℤ))

/-- BlockInfo.shape: per-axis stop - start, in NumPy order. -/
def blockShape (b : BlockInfo) : List ℤ :=
  b.array_slice.map (fun s => (s.2 : ℤ) - (s.1 : ℤ))

/-- The per-axis padding of register_subimage:
ceil(block_length * overlap_factor * 0.5). -/
def fixedPadding (b : BlockInfo) (ov : List ℚ) : List ℤ :=
  List.zipWith (fun len f => ⌈(len : ℚ) * f * (1/2)⌉) (blockShape b) ov

/-- The unpadded fixed block region, flipped into ITK access order. -/
def fixedBlockRegion (b : BlockInfo) : ImageRegion3 :=
  ⟨regionTupleOfNumpy (blockStartIndex b), regionTupleOfNumpy (blockShape b)⟩

/-- The padded fixed block region before cropping: start - padding, size
+ 2 * padding, flipped into ITK access order. -/
def fixedPaddedRegion (b : BlockInfo) (ov : List ℚ) : ImageRegion3 :=
  ⟨regionTupleOfNumpy (List.zipWith (· - ·) (blockStartIndex b) (fixedPadding b ov)),
   regionTupleOfNumpy (List.zipWith (fun s p => s + 2 * p) (blockShape b) (fixedPadding b ov))⟩

/-- The padded fixed region after padded_region.Crop(largest possible). -/
def fixedCroppedRegion (b : BlockInfo) (ov : List ℚ) (largest : ImageRegion3) :
    ImageRegion3 :=
  (fixedPaddedRegion b ov).crop largest

/-- register_subimage from src/itk_dreg/register.py.  External collaborators
are parameters: the fixed and moving reader metadata, the initial transform
point mapping, the signal probe np.any(moving_block_image) (an Except since a
read failure raises RuntimeError, which the code re-raises), and the callback
outcome.  The requested-region bookkeeping on the fetched subimages only
feeds the external callback and the logs, so it contributes no further model
state.  Every early exit returns the default result; a callback exception or
a non-BlockPairRegistrationResult return is caught and also yields the
default result. -/
def register_subimage (fixedMeta movingMeta : ImageMeta)
    (block_registration_method : CallbackOutcome) (block_info : BlockInfo)
    (initial_transform : Vec3 → Vec3) (overlap_factors : Option (List ℚ))
    (default_result : Option BlockPairRegistrationResult)
    (movingHasSignal : Except PyErr Bool) :
    Except PyErr BlockPairRegistrationResult :=
  let defaultRes := default_result.getD uniformFailureResult
  match overlapResolve block_info overlap_factors with
  | .error e => .error e
  | .ok ov =>
    let padded_region := fixedCroppedRegion block_info ov fixedMeta.largest
    if ¬ fixedMeta.largest.isInside padded_region then .ok defaultRes
    else
      let block_region := fixedBlockRegion block_info
      let moving_padded_region :=
        block_to_image_region
          (get_target_block_region (image_to_block_region padded_region)
            fixedMeta.geom movingMeta (some initial_transform) true)
      let _moving_unpadded_region :=
        (block_to_image_region
          (get_target_block_region (image_to_block_region block_region)
            fixedMeta.geom movingMeta (some initial_transform) true)).crop
          moving_padded_region
      if ¬ movingMeta.largest.isInside moving_padded_region then .ok defaultRes
      else
        match movingHasSignal with
        | .error e => .error e
        | .ok false => .ok defaultRes
        | .ok true =>
            match block_registration_method with
            | .returns r => .ok r
            | .raisesException => .ok defaultRes
            | .returnsNonResult => .ok defaultRes

end ItkDreg

namespace ItkDreg

/-! Embedding of src/itk_dreg/block/image.py physical_region_to_itk_image and
src/itk_dreg/reduce_dfield/transform.py collection_to_deformation_field. -/

/-- physical_region_to_itk_image: build the metadata of an image whose voxel
grid subdivides a physical region at the requested spacing and direction.
np.linalg.inv(direction * diag(spacing)) is expressed through the stored
inverse direction matrix as diag(spacing)⁻¹ * direction⁻¹. -/
def physical_region_to_itk_image (pr : Arr2x3) (spacing : Vec3)
    (direction dirInv : Mat3) (extend_beyond : Bool) : ImageMeta :=
  let voxelStepVecs : Mat3 := fun i j => direction i j * spacing j
  let physicalStep : Vec3 :=
    fun i => voxelStepVecs i (argmax3 (fun j => |voxelStepVecs i j|))
  let gridSizeF : Vec3 := fun i => (pr.maxAxis i - pr.minAxis i) / |physicalStep i|
  let gridSize : Vec3 := fun i =>
    ((if extend_beyond then ⌈gridSizeF i⌉ else ⌊gridSizeF i⌋ : ℤ) : ℚ)
  let centerpoint : Vec3 := fun i => (pr.r0 i + pr.r1 i) / 2
  let outputRegion : Arr2x3 :=
    ⟨fun i => centerpoint i - gridSize i / 2 * physicalStep i,
     fun i => centerpoint i + gridSize i / 2 * physicalStep i⟩
  let voxel0Corner : Vec3 := fun i =>
    if 0 < physicalStep i then outputRegion.minAxis i else outputRegion.maxAxis i
  let voxel0Origin : Vec3 := fun i => voxel0Corner i + physicalStep i / 2
  let stepInv : Mat3 := fun i j => dirInv i j / spacing i
  let outputSize : Vec3 :=
    mat3MulVec stepInv (fun j => outputRegion.r1 j - voxel0Corner j)
  { geom := { origin := voxel0Origin, spacing := spacing,
              direction := direction, dirInv := dirInv },
    largest := { index := fun _ => 0, size := fun i => pyInt (outputSize i) } }

/-- The output of collection_to_deformation_field: the displacement field
grid metadata together with the per-voxel displacement vectors. -/
structure DisplacementFieldModel where
  field_meta : ImageMeta
  pixels : List ℕ → Vec3

/-- image.SetPixel(idx, v) on a pixel map. -/
def writePx (px : List ℕ → Vec3) (idx : List ℕ) (v : Vec3) : List ℕ → Vec3 :=
  fun j => if j = idx then v else px j

/-- One iteration of the voxel loop in collection_to_deformation_field: query
the collection at the physical point of the voxel and store the displacement,
or leave the voxel untouched when the query raises its no-coverage
ValueError. -/
def dfieldStep (tc : TransformCollection) (pfun : List ℕ → Vec3)
    (px : List ℕ → Vec3) (idx : List ℕ) : List ℕ → Vec3 :=
  match tc.transform_point (pfun idx) with
  | .ok q => writePx px idx (fun i => q i - pfun idx i)
  | .error _ => px

/-- The displacement field metadata built by
collection_to_deformation_field_transform: the initial-transformed physical
extent of the reference image, sampled at the scaled reference spacing. -/
def dfieldOutputMeta (reference : ImageMeta) (initial_transform : Vec3 → Vec3)
    (scale_factors : Vec3) : ImageMeta :=
  physical_region_to_itk_image
    (image_to_physical_region reference.largest reference.geom
      (some initial_transform))
    (fun i => reference.geom.spacing i * scale_factors i)
    reference.geom.direction reference.geom.dirInv true

/-- The ITK-order voxel grid sizes iterated by the voxel loop. -/
def dfieldSizes (outMeta : ImageMeta) : List ℕ :=
  [(outMeta.largest.size 0).toNat, (outMeta.largest.size 1).toNat,
   (outMeta.largest.size 2).toNat]

/-- The physical point of an output voxel:
output_field.TransformIndexToPhysicalPoint([x,y,z]). -/
def dfieldPoint (outMeta : ImageMeta) (idx : List ℕ) : Vec3 :=
  outMeta.geom.indexToPhysical (fun i => (idx.getD i 0 : ℤ))

/-- collection_to_deformation_field_transform from
src/itk_dreg/reduce_dfield/transform.py: allocate the output grid filled with
the zero displacement, then for every voxel of the grid store
transform_point(p) - p, skipping voxels where the collection raises its
no-coverage error. -/
def collection_to_deformation_field (tc : TransformCollection)
    (reference : ImageMeta) (initial_transform : Vec3 → Vec3)
    (scale_factors : Vec3) : DisplacementFieldModel :=
  let outMeta := dfieldOutputMeta reference initial_transform scale_factors
  { field_meta := outMeta
    pixels := (ndindex (dfieldSizes outMeta)).foldl
      (dfieldStep tc (dfieldPoint outMeta)) (fun _ _ => 0) }

end ItkDreg

namespace ItkDreg

/-! Theorems.  Helper lemmas first, then one theorem per claim with its
witness where the statement carries hypotheses. -/

/-- transform_point returns the blended value as soon as the contributor
filter is nonempty. -/
theorem transform_point_of_filter_cons (c : TransformCollection) (pt : Vec3)
    (e : TransformEntry) (l : List TransformEntry)
    (h : c.transform_and_domain_list.filter (coversPoint pt) = e :: l) :
    c.transform_point pt = .ok (c.blend_method pt (e :: l)) := by
  rw [TransformCollection.transform_point, h]
  rfl

/-- An entry fails the coverage filter exactly when it is bounded and its
sample bounds exclude the point. -/
theorem coversPoint_eq_false_iff (pt : Vec3) (e : TransformEntry) :
    coversPoint pt e = false ↔
      ∃ d, e.domain = some d ∧
        bounds_contains (get_sample_bounds d.meta none) pt = false := by
  rcases he : e.domain with _ | d
  · simp [coversPoint, he]
  · simp [coversPoint, he]

/-- An entry passes the coverage filter exactly when it is unbounded or its
sample bounds contain the point. -/
theorem coversPoint_eq_true_iff (pt : Vec3) (e : TransformEntry) :
    coversPoint pt e = true ↔
      (e.domain = none ∨
        ∃ d, e.domain = some d ∧
          bounds_contains (get_sample_bounds d.meta none) pt = true) := by
  rcases he : e.domain with _ | d
  · simp [coversPoint, he]
  · simp [coversPoint, he]

/-- C1: BlockPairRegistrationResult.__init__ is claimed to enforce that
transform_domain is present if and only if transform is present; the code
only checks the forward direction, so constructing a FAILURE result with a
valid nonzero-volume domain and no transform succeeds, contradicting the
docstring invariant. -/
theorem blockpair_result_accepts_domain_without_transform :
    mkBlockPairRegistrationResult .failure none (some unitCubeDomain) none none =
      .ok ⟨.failure, none, some unitCubeDomain, none, none⟩ ∧
    (some unitCubeDomain).isSome = true ∧ (none : Option PyTransform).isNone = true := by
  refine ⟨?_, rfl, rfl⟩
  rfl

end ItkDreg

namespace ItkDreg

/-- C9: TransformCollection.push raises TypeError exactly for entries whose
transform is not a 3-D itk.Transform (double or float parametrization) or
whose present domain is neither an itk.Image nor an itk.VectorImage, leaving
the collection unchanged; a valid entry is appended at the end of the entry
list, and no entry is ever removed. -/
theorem push_validates_and_appends (c : TransformCollection) (e : TransformEntry) :
    (((e.transform.cls ≠ TransformClass.d33 ∧ e.transform.cls ≠ TransformClass.f33) ∨
        (∃ d, e.domain = some d ∧ d.template = ImageTemplateKind.otherTemplate)) →
      c.push e = .error .typeError) ∧
    (¬ ((e.transform.cls ≠ TransformClass.d33 ∧ e.transform.cls ≠ TransformClass.f33) ∨
        (∃ d, e.domain = some d ∧ d.template = ImageTemplateKind.otherTemplate)) →
      c.push e = .ok ⟨c.blend_method, c.transform_and_domain_list ++ [e]⟩) := by
  rcases e with ⟨⟨cls, emap⟩, dom⟩
  rcases dom with _ | d <;> cases cls <;>
    simp [TransformCollection.push, validate_entry, entryInvalid] <;>
    constructor <;> intro h <;> simp [h]

/-- Witness for C9 at concrete inputs: pushing an invalid entry on the empty
collection raises TypeError, and pushing a valid entry appends it. -/
theorem push_validates_and_appends_witness :
    TransformCollection.push ⟨blend_simple_mean, []⟩
        ⟨⟨TransformClass.other, fun p => p⟩, none⟩ = .error .typeError ∧
    TransformCollection.push ⟨blend_simple_mean, []⟩
        ⟨translationBy 1, some unitCubeDomain⟩ =
      .ok ⟨blend_simple_mean, [] ++ [⟨translationBy 1, some unitCubeDomain⟩]⟩ :=
  ⟨(push_validates_and_appends ⟨blend_simple_mean, []⟩
      ⟨⟨TransformClass.other, fun p => p⟩, none⟩).1
      (Or.inl ⟨by simp, by simp⟩),
   (push_validates_and_appends ⟨blend_simple_mean, []⟩
      ⟨translationBy 1, some unitCubeDomain⟩).2
      (by simp [translationBy, unitCubeDomain])⟩

/-- C10: register_images rejects any fixed image dimension other than 2 or 3
with a ValueError before building anything, and for 2-D and 3-D images it
builds the block schedule. -/
theorem register_images_dimension_check (dim : ℕ) (shape : List ℕ)
    (chunk_size : Option (List ℕ)) :
    ((dim ≠ 2 ∧ dim ≠ 3) ↔
      register_images dim shape chunk_size = .error .valueError) ∧
    ((dim = 2 ∨ dim = 3) →
      register_images dim shape chunk_size =
        .ok ⟨(List.zipWith normalizeAxisChunks shape
                (chunk_size.getD (List.replicate dim 256))).map List.length,
             iterate_block_info
               (List.zipWith normalizeAxisChunks shape
                 (chunk_size.getD (List.replicate dim 256)))⟩) := by
  by_cases h : dim ≠ 2 ∧ dim ≠ 3
  · constructor
    · simp [register_images, h]
    · rintro (h2 | h3) <;> simp_all
  · constructor
    · simp [register_images, h]
    · intro hd
      simp [register_images, h]

/-- Witness for C10: a 3-D image with a 2-voxel extent and default chunking
produces the singleton block schedule. -/
theorem register_images_dimension_check_witness :
    register_images 3 [2, 2, 2] none =
      .ok ⟨(List.zipWith normalizeAxisChunks [2, 2, 2]
              ((none : Option (List ℕ)).getD (List.replicate 3 256))).map List.length,
           iterate_block_info
             (List.zipWith normalizeAxisChunks [2, 2, 2]
               ((none : Option (List ℕ)).getD (List.replicate 3 256)))⟩ :=
  (register_images_dimension_check 3 [2, 2, 2] none).2 (Or.inr rfl)

end ItkDreg

namespace ItkDreg

/-- C2: transform_point raises its coverage ValueError exactly when no entry
is unbounded and the point lies outside the inclusive sample bounds of every
bounded domain; whenever some entry covers the point it returns the blend
method applied to the point and exactly the covering entries. -/
theorem transform_point_coverage (c : TransformCollection) (pt : Vec3) :
    (c.transform_point pt = .error .valueError ↔
      ∀ e ∈ c.transform_and_domain_list, ∃ d, e.domain = some d ∧
        bounds_contains (get_sample_bounds d.meta none) pt = false) ∧
    ((∃ e ∈ c.transform_and_domain_list,
        (e.domain = none ∨ ∃ d, e.domain = some d ∧
          bounds_contains (get_sample_bounds d.meta none) pt = true)) →
      c.transform_point pt =
        .ok (c.blend_method pt
          (c.transform_and_domain_list.filter (coversPoint pt)))) := by
  constructor
  · constructor
    · intro herr e he
      rw [← coversPoint_eq_false_iff]
      by_contra hne
      have hcov : coversPoint pt e = true := by
        cases hc : coversPoint pt e
        · exact absurd hc hne
        · rfl
      have hmem : e ∈ c.transform_and_domain_list.filter (coversPoint pt) :=
        List.mem_filter.mpr ⟨he, hcov⟩
      cases hl : c.transform_and_domain_list.filter (coversPoint pt) with
      | nil => rw [hl] at hmem; exact absurd hmem (List.not_mem_nil e)
      | cons x xs =>
          rw [transform_point_of_filter_cons c pt x xs hl] at herr
          exact Except.noConfusion herr
    · intro hall
      have hnil : c.transform_and_domain_list.filter (coversPoint pt) = [] := by
        rw [List.filter_eq_nil_iff]
        intro a ha
        have hfa := (coversPoint_eq_false_iff pt a).mpr (hall a ha)
        simp [hfa]
      rw [TransformCollection.transform_point, hnil]
      rfl
  · rintro ⟨e, he, hcase⟩
    have hcov : coversPoint pt e = true := (coversPoint_eq_true_iff pt e).mpr hcase
    have hmem : e ∈ c.transform_and_domain_list.filter (coversPoint pt) :=
      List.mem_filter.mpr ⟨he, hcov⟩
    cases hl : c.transform_and_domain_list.filter (coversPoint pt) with
    | nil => rw [hl] at hmem; exact absurd hmem (List.not_mem_nil e)
    | cons x xs =>
        rw [transform_point_of_filter_cons c pt x xs hl]

/-- Witness for C2: a collection holding one unbounded translation covers the
origin, so transform_point returns the blend of the covering entries. -/
theorem transform_point_coverage_witness :
    TransformCollection.transform_point
        ⟨blend_simple_mean, [⟨translationBy 1, none⟩]⟩ ![0, 0, 0] =
      .ok (blend_simple_mean ![0, 0, 0]
        (([⟨translationBy 1, none⟩] : List TransformEntry).filter
          (coversPoint ![0, 0, 0]))) :=
  (transform_point_coverage ⟨blend_simple_mean, [⟨translationBy 1, none⟩]⟩
      ![0, 0, 0]).2
    ⟨⟨translationBy 1, none⟩, by simp, Or.inl rfl⟩

end ItkDreg

namespace ItkDreg

set_option maxHeartbeats 4000000 in
/-- C3: with the distance-weighted-mean blend and two translations by
(1,1,1) and (2,2,2) over unit-spacing size-4 cube domains at origins (0,0,0)
and (1,1,1), transform_point maps (0,0,0) to (1,1,1), (1,1,1) to (2.25,...),
(2,2,2) to (3.5,...), (3,3,3) to (4.75,...) and (4.4,...) to (6.4,...). -/
theorem distance_weighted_blend_example :
    distanceBlendExample.transform_point ![0, 0, 0] = .ok ![1, 1, 1] ∧
    distanceBlendExample.transform_point ![1, 1, 1] = .ok ![9/4, 9/4, 9/4] ∧
    distanceBlendExample.transform_point ![2, 2, 2] = .ok ![7/2, 7/2, 7/2] ∧
    distanceBlendExample.transform_point ![3, 3, 3] = .ok ![19/4, 19/4, 19/4] ∧
    distanceBlendExample.transform_point ![22/5, 22/5, 22/5] =
      .ok ![32/5, 32/5, 32/5] := by
  have hd10 : (physical_distance_from_edge ![0, 0, 0] (cubeDomain4 0).meta).1 = 1/2 := by
    norm_num [physical_distance_from_edge, pixel_distance_from_edge, argmax3, argmin3,
      ImageGeom.physicalToContIndex, mat3MulVec, Fin.sum_univ_three,
      Matrix.vecHead, Matrix.vecTail, cubeDomain4, geomWithOrigin, identityGeom,
      abs_eq_max_neg, max_def]
  have hd11 : (physical_distance_from_edge ![1, 1, 1] (cubeDomain4 0).meta).1 = 3/2 := by
    norm_num [physical_distance_from_edge, pixel_distance_from_edge, argmax3, argmin3,
      ImageGeom.physicalToContIndex, mat3MulVec, Fin.sum_univ_three,
      Matrix.vecHead, Matrix.vecTail, cubeDomain4, geomWithOrigin, identityGeom,
      abs_eq_max_neg, max_def]
  have hd21 : (physical_distance_from_edge ![1, 1, 1] (cubeDomain4 1).meta).1 = 1/2 := by
    norm_num [physical_distance_from_edge, pixel_distance_from_edge, argmax3, argmin3,
      ImageGeom.physicalToContIndex, mat3MulVec, Fin.sum_univ_three,
      Matrix.vecHead, Matrix.vecTail, cubeDomain4, geomWithOrigin, identityGeom,
      abs_eq_max_neg, max_def]
  have hd12 : (physical_distance_from_edge ![2, 2, 2] (cubeDomain4 0).meta).1 = 3/2 := by
    norm_num [physical_distance_from_edge, pixel_distance_from_edge, argmax3, argmin3,
      ImageGeom.physicalToContIndex, mat3MulVec, Fin.sum_univ_three,
      Matrix.vecHead, Matrix.vecTail, cubeDomain4, geomWithOrigin, identityGeom,
      abs_eq_max_neg, max_def]
  have hd22 : (physical_distance_from_edge ![2, 2, 2] (cubeDomain4 1).meta).1 = 3/2 := by
    norm_num [physical_distance_from_edge, pixel_distance_from_edge, argmax3, argmin3,
      ImageGeom.physicalToContIndex, mat3MulVec, Fin.sum_univ_three,
      Matrix.vecHead, Matrix.vecTail, cubeDomain4, geomWithOrigin, identityGeom,
      abs_eq_max_neg, max_def]
  have hd13 : (physical_distance_from_edge ![3, 3, 3] (cubeDomain4 0).meta).1 = 1/2 := by
    norm_num [physical_distance_from_edge, pixel_distance_from_edge, argmax3, argmin3,
      ImageGeom.physicalToContIndex, mat3MulVec, Fin.sum_univ_three,
      Matrix.vecHead, Matrix.vecTail, cubeDomain4, geomWithOrigin, identityGeom,
      abs_eq_max_neg, max_def]
  have hd23 : (physical_distance_from_edge ![3, 3, 3] (cubeDomain4 1).meta).1 = 3/2 := by
    norm_num [physical_distance_from_edge, pixel_distance_from_edge, argmax3, argmin3,
      ImageGeom.physicalToContIndex, mat3MulVec, Fin.sum_univ_three,
      Matrix.vecHead, Matrix.vecTail, cubeDomain4, geomWithOrigin, identityGeom,
      abs_eq_max_neg, max_def]
  have hd24 : (physical_distance_from_edge ![22/5, 22/5, 22/5] (cubeDomain4 1).meta).1 = 1/10 := by
    norm_num [physical_distance_from_edge, pixel_distance_from_edge, argmax3, argmin3,
      ImageGeom.physicalToContIndex, mat3MulVec, Fin.sum_univ_three,
      Matrix.vecHead, Matrix.vecTail, cubeDomain4, geomWithOrigin, identityGeom,
      abs_eq_max_neg, max_def]
  have hf0 : distanceBlendExample.transform_and_domain_list.filter (coversPoint ![0, 0, 0]) =
      [⟨translationBy 1, some (cubeDomain4 0)⟩] := by
    norm_num [coversPoint, bounds_contains, get_sample_bounds, image_to_physical_region,
      block_to_physical_region, image_to_block_region, Arr2x3.minAxis, Arr2x3.maxAxis,
      ImageGeom.contIndexToPhysical, mat3MulVec, Fin.sum_univ_three,
      ImageRegion3.upperIndex, Matrix.vecHead, Matrix.vecTail,
      distanceBlendExample, cubeDomain4, geomWithOrigin, identityGeom,
      Fin.forall_fin_succ, min_def, max_def]
  have hf1 : distanceBlendExample.transform_and_domain_list.filter (coversPoint ![1, 1, 1]) =
      [⟨translationBy 1, some (cubeDomain4 0)⟩, ⟨translationBy 2, some (cubeDomain4 1)⟩] := by
    norm_num [coversPoint, bounds_contains, get_sample_bounds, image_to_physical_region,
      block_to_physical_region, image_to_block_region, Arr2x3.minAxis, Arr2x3.maxAxis,
      ImageGeom.contIndexToPhysical, mat3MulVec, Fin.sum_univ_three,
      ImageRegion3.upperIndex, Matrix.vecHead, Matrix.vecTail,
      distanceBlendExample, cubeDomain4, geomWithOrigin, identityGeom,
      Fin.forall_fin_succ, min_def, max_def]
  have hf2 : distanceBlendExample.transform_and_domain_list.filter (coversPoint ![2, 2, 2]) =
      [⟨translationBy 1, some (cubeDomain4 0)⟩, ⟨translationBy 2, some (cubeDomain4 1)⟩] := by
    norm_num [coversPoint, bounds_contains, get_sample_bounds, image_to_physical_region,
      block_to_physical_region, image_to_block_region, Arr2x3.minAxis, Arr2x3.maxAxis,
      ImageGeom.contIndexToPhysical, mat3MulVec, Fin.sum_univ_three,
      ImageRegion3.upperIndex, Matrix.vecHead, Matrix.vecTail,
      distanceBlendExample, cubeDomain4, geomWithOrigin, identityGeom,
      Fin.forall_fin_succ, min_def, max_def]
  have hf3 : distanceBlendExample.transform_and_domain_list.filter (coversPoint ![3, 3, 3]) =
      [⟨translationBy 1, some (cubeDomain4 0)⟩, ⟨translationBy 2, some (cubeDomain4 1)⟩] := by
    norm_num [coversPoint, bounds_contains, get_sample_bounds, image_to_physical_region,
      block_to_physical_region, image_to_block_region, Arr2x3.minAxis, Arr2x3.maxAxis,
      ImageGeom.contIndexToPhysical, mat3MulVec, Fin.sum_univ_three,
      ImageRegion3.upperIndex, Matrix.vecHead, Matrix.vecTail,
      distanceBlendExample, cubeDomain4, geomWithOrigin, identityGeom,
      Fin.forall_fin_succ, min_def, max_def]
  have hf4 : distanceBlendExample.transform_and_domain_list.filter (coversPoint ![22/5, 22/5, 22/5]) =
      [⟨translationBy 2, some (cubeDomain4 1)⟩] := by
    norm_num [coversPoint, bounds_contains, get_sample_bounds, image_to_physical_region,
      block_to_physical_region, image_to_block_region, Arr2x3.minAxis, Arr2x3.maxAxis,
      ImageGeom.contIndexToPhysical, mat3MulVec, Fin.sum_univ_three,
      ImageRegion3.upperIndex, Matrix.vecHead, Matrix.vecTail,
      distanceBlendExample, cubeDomain4, geomWithOrigin, identityGeom,
      Fin.forall_fin_succ, min_def, max_def]
  refine ⟨?_, ?_, ?_, ?_, ?_⟩
  · rw [transform_point_of_filter_cons _ _ _ _ hf0]
    congr 1
    funext i
    fin_cases i <;>
      norm_num [distanceBlendExample, blend_distance_weighted_mean, translationBy,
        hd10, npIsCloseZero, MIN_WEIGHT, Matrix.vecHead, Matrix.vecTail,
        abs_eq_max_neg, max_def]
  · rw [transform_point_of_filter_cons _ _ _ _ hf1]
    congr 1
    funext i
    fin_cases i <;>
      norm_num [distanceBlendExample, blend_distance_weighted_mean, translationBy,
        hd11, hd21, npIsCloseZero, MIN_WEIGHT, Matrix.vecHead, Matrix.vecTail,
        abs_eq_max_neg, max_def]
  · rw [transform_point_of_filter_cons _ _ _ _ hf2]
    congr 1
    funext i
    fin_cases i <;>
      norm_num [distanceBlendExample, blend_distance_weighted_mean, translationBy,
        hd12, hd22, npIsCloseZero, MIN_WEIGHT, Matrix.vecHead, Matrix.vecTail,
        abs_eq_max_neg, max_def]
  · rw [transform_point_of_filter_cons _ _ _ _ hf3]
    congr 1
    funext i
    fin_cases i <;>
      norm_num [distanceBlendExample, blend_distance_weighted_mean, translationBy,
        hd13, hd23, npIsCloseZero, MIN_WEIGHT, Matrix.vecHead, Matrix.vecTail,
        abs_eq_max_neg, max_def]
  · rw [transform_point_of_filter_cons _ _ _ _ hf4]
    congr 1
    funext i
    fin_cases i <;>
      norm_num [distanceBlendExample, blend_distance_weighted_mean, translationBy,
        hd24, npIsCloseZero, MIN_WEIGHT, Matrix.vecHead, Matrix.vecTail,
        abs_eq_max_neg, max_def]

end ItkDreg

namespace ItkDreg

/-- C4: whatever the block and image configuration, if the registration
callback raises or returns an object that is not a
BlockPairRegistrationResult, register_subimage returns the uniform FAILURE
default result and no exception escapes the task (given that the moving
signal probe itself did not raise). -/
theorem register_subimage_callback_failure_isolated
    (fixedMeta movingMeta : ImageMeta) (cb : CallbackOutcome)
    (bi : BlockInfo) (it : Vec3 → Vec3) (ovl : List ℚ)
    (dr : Option BlockPairRegistrationResult) (b : Bool)
    (hcb : cb = .raisesException ∨ cb = .returnsNonResult) :
    register_subimage fixedMeta movingMeta cb bi it (some ovl) dr (.ok b) =
      .ok (dr.getD uniformFailureResult) := by
  rcases hcb with h | h <;> subst h <;>
    simp only [register_subimage, overlapResolve] <;>
    split <;> try rfl
  all_goals (split <;> try rfl)
  all_goals (cases b <;> rfl)

/-- Witness for C4 at a concrete configuration whose callback raises. -/
theorem register_subimage_callback_failure_isolated_witness :
    register_subimage ⟨identityGeom, ⟨![0, 0, 0], ![4, 4, 4]⟩⟩
        ⟨identityGeom, ⟨![0, 0, 0], ![32, 32, 32]⟩⟩ .raisesException
        ⟨[0, 0, 0], [(0, 4), (0, 4), (0, 4)]⟩ (fun p => p) (some [0, 0, 0]) none
        (.ok true) =
      .ok ((none : Option BlockPairRegistrationResult).getD uniformFailureResult) :=
  register_subimage_callback_failure_isolated _ _ _ _ _ _ _ _ (Or.inl rfl)

/-- C5: the per-axis padding equals ceil(block_length * overlap_factor / 2)
on each side, the padded region is cropped against the fixed largest possible
region, and whenever the cropped padded region is not inside the largest
possible region register_subimage returns the uniform FAILURE default result
with an outcome independent of the registration callback and of everything
downstream. -/
theorem register_subimage_padding_and_crop
    (fixedMeta movingMeta : ImageMeta) (cb cb2 : CallbackOutcome) (bi : BlockInfo)
    (it : Vec3 → Vec3) (ovl : List ℚ) (dr : Option BlockPairRegistrationResult)
    (sig sig2 : Except PyErr Bool) :
    fixedPadding bi ovl =
      List.zipWith (fun len f => ⌈(len : ℚ) * f * (1/2)⌉) (blockShape bi) ovl ∧
    fixedCroppedRegion bi ovl fixedMeta.largest =
      ImageRegion3.crop (fixedPaddedRegion bi ovl) fixedMeta.largest ∧
    (fixedMeta.largest.isInside (fixedCroppedRegion bi ovl fixedMeta.largest) = false →
      register_subimage fixedMeta movingMeta cb bi it (some ovl) dr sig =
        .ok (dr.getD uniformFailureResult) ∧
      register_subimage fixedMeta movingMeta cb bi it (some ovl) dr sig =
        register_subimage fixedMeta movingMeta cb2 bi it (some ovl) dr sig2) := by
  refine ⟨rfl, rfl, ?_⟩
  intro hout
  constructor <;>
    simp only [register_subimage, overlapResolve] <;>
    simp [hout]

/-- Witness for C5: a block disjoint from the fixed extent leaves the crop
unchanged, fails the inside check, and yields the default failure result. -/
theorem register_subimage_padding_and_crop_witness :
    (ImageRegion3.isInside ⟨![0, 0, 0], ![4, 4, 4]⟩
        (fixedCroppedRegion ⟨[0, 0, 0], [(10, 12), (10, 12), (10, 12)]⟩ [0, 0, 0]
          ⟨![0, 0, 0], ![4, 4, 4]⟩) = false) ∧
    register_subimage ⟨identityGeom, ⟨![0, 0, 0], ![4, 4, 4]⟩⟩
        ⟨identityGeom, ⟨![0, 0, 0], ![32, 32, 32]⟩⟩ .returnsNonResult
        ⟨[0, 0, 0], [(10, 12), (10, 12), (10, 12)]⟩ (fun p => p) (some [0, 0, 0])
        none (.ok true) =
      .ok ((none : Option BlockPairRegistrationResult).getD uniformFailureResult) := by
  have hout : ImageRegion3.isInside ⟨![0, 0, 0], ![4, 4, 4]⟩
      (fixedCroppedRegion ⟨[0, 0, 0], [(10, 12), (10, 12), (10, 12)]⟩ [0, 0, 0]
        ⟨![0, 0, 0], ![4, 4, 4]⟩) = false := by
    norm_num [ImageRegion3.isInside, ImageRegion3.crop, fixedCroppedRegion,
      fixedPaddedRegion, fixedPadding, blockShape, blockStartIndex,
      regionTupleOfNumpy, Fin.forall_fin_succ, Matrix.vecHead, Matrix.vecTail,
      List.getD, min_def, max_def]
  exact ⟨hout,
    ((register_subimage_padding_and_crop ⟨identityGeom, ⟨![0, 0, 0], ![4, 4, 4]⟩⟩
        ⟨identityGeom, ⟨![0, 0, 0], ![32, 32, 32]⟩⟩ .returnsNonResult .returnsNonResult
        ⟨[0, 0, 0], [(10, 12), (10, 12), (10, 12)]⟩ (fun p => p) [0, 0, 0] none
        (.ok true) (.ok true)).2.2 hout).1⟩

end ItkDreg

namespace ItkDreg

/-- Per-axis content of the round trip: mapping half-voxel-shifted
bounds to physical space, sorting, mapping back and sorting again restores
the shifted bounds, for any nonzero axis coefficient. -/
theorem round_trip_axis (dd s o a b : ℚ) (hdd : dd ≠ 0) (hs : s ≠ 0) (hab : a ≤ b) :
    min (dd⁻¹ * (min (o + dd * (s * a)) (o + dd * (s * b)) - o) / s)
        (dd⁻¹ * (max (o + dd * (s * a)) (o + dd * (s * b)) - o) / s) = a ∧
    max (dd⁻¹ * (min (o + dd * (s * a)) (o + dd * (s * b)) - o) / s)
        (dd⁻¹ * (max (o + dd * (s * a)) (o + dd * (s * b)) - o) / s) = b := by
  have e1 : o + dd * (s * a) = o + dd * s * a := by ring
  have e2 : o + dd * (s * b) = o + dd * s * b := by ring
  rw [e1, e2]
  rcases (mul_ne_zero hdd hs).lt_or_lt with hc | hc
  · have hba : dd * s * b ≤ dd * s * a := mul_le_mul_of_nonpos_left hab hc.le
    have hminv : min (o + dd * s * a) (o + dd * s * b) = o + dd * s * b := by
      apply min_eq_right; linarith
    have hmaxv : max (o + dd * s * a) (o + dd * s * b) = o + dd * s * a := by
      apply max_eq_left; linarith
    rw [hminv, hmaxv]
    have v1 : dd⁻¹ * (o + dd * s * b - o) / s = b := by field_simp
    have v2 : dd⁻¹ * (o + dd * s * a - o) / s = a := by field_simp
    rw [v1, v2]
    constructor
    · rw [min_comm]; exact min_eq_left hab
    · rw [max_comm]; exact max_eq_right hab
  · have hab2 : dd * s * a ≤ dd * s * b := mul_le_mul_of_nonneg_left hab hc.le
    have hminv : min (o + dd * s * a) (o + dd * s * b) = o + dd * s * a := by
      apply min_eq_left; linarith
    have hmaxv : max (o + dd * s * a) (o + dd * s * b) = o + dd * s * b := by
      apply max_eq_right; linarith
    rw [hminv, hmaxv]
    have v1 : dd⁻¹ * (o + dd * s * a - o) / s = a := by field_simp
    have v2 : dd⁻¹ * (o + dd * s * b - o) / s = b := by field_simp
    rw [v1, v2]
    exact ⟨min_eq_left hab, max_eq_right hab⟩

/-- Extensionality for 2x3 bounds arrays. -/
theorem arr2x3_ext (A B : Arr2x3) (h0 : A.r0 = B.r0) (h1 : A.r1 = B.r1) : A = B := by
  cases A; cases B; cases h0; cases h1; rfl

/-- C6: for every sorted voxel region and axis-aligned reference metadata
(diagonal direction with nonzero entries and nonzero spacing), converting to
a physical region and back restores the region exactly: the half-voxel shift
of block_to_physical_region is undone by physical_to_block_region. -/
theorem block_physical_round_trip (g : ImageGeom) (d : Vec3) (R : Arr2x3)
    (hdir : g.direction = diag3 d) (hinv : g.dirInv = diag3 (fun i => (d i)⁻¹))
    (hd : ∀ i, d i ≠ 0) (hs : ∀ i, g.spacing i ≠ 0) (hR : ∀ i, R.r0 i ≤ R.r1 i) :
    physical_to_block_region (block_to_physical_region R g none) g = R := by
  have hT : ∀ (x : Vec3) (i : Fin 3),
      g.contIndexToPhysical x i = g.origin i + d i * (g.spacing i * x i) := by
    intro x i
    simp only [ImageGeom.contIndexToPhysical, mat3MulVec, hdir, diag3,
      Fin.sum_univ_three]
    fin_cases i <;> simp
  have hTinv : ∀ (p : Vec3) (i : Fin 3),
      g.physicalToContIndex p i = (d i)⁻¹ * (p i - g.origin i) / g.spacing i := by
    intro p i
    simp only [ImageGeom.physicalToContIndex, mat3MulVec, hinv, diag3,
      Fin.sum_univ_three]
    fin_cases i <;> simp
  apply arr2x3_ext <;> funext i <;>
    simp only [physical_to_block_region, block_to_physical_region,
      Arr2x3.minAxis, Arr2x3.maxAxis, hT, hTinv] <;>
    rw [min_eq_left (hR i), max_eq_right (hR i)]
  · have hax := round_trip_axis (d i) (g.spacing i) (g.origin i)
      (R.r0 i - 1/2) (R.r1 i - 1/2) (hd i) (hs i) (by linarith [hR i])
    rw [hax.1]
    ring
  · have hax := round_trip_axis (d i) (g.spacing i) (g.origin i)
      (R.r0 i - 1/2) (R.r1 i - 1/2) (hd i) (hs i) (by linarith [hR i])
    rw [hax.2]
    ring

/-- Witness for C6 at the identity geometry and the region [0,2)x[0,3)x[0,4). -/
theorem block_physical_round_trip_witness :
    physical_to_block_region
        (block_to_physical_region ⟨![0, 0, 0], ![2, 3, 4]⟩ identityGeom none)
        identityGeom = ⟨![0, 0, 0], ![2, 3, 4]⟩ :=
  block_physical_round_trip identityGeom ![1, 1, 1] ⟨![0, 0, 0], ![2, 3, 4]⟩
    (by funext i j; fin_cases i <;> fin_cases j <;>
      simp [identityGeom, diag3, Matrix.vecHead, Matrix.vecTail])
    (by funext i j; fin_cases i <;> fin_cases j <;>
      simp [identityGeom, diag3, Matrix.vecHead, Matrix.vecTail])
    (by intro i; fin_cases i <;> norm_num)
    (by intro i; fin_cases i <;> norm_num [identityGeom])
    (by intro i; fin_cases i <;> norm_num)

end ItkDreg

namespace ItkDreg

theorem cartProd_nodup {α : Type} (ls : List (List α)) (h : ∀ l ∈ ls, l.Nodup) :
    (cartProd ls).Nodup := by
  induction ls with
  | nil => simp [cartProd]
  | cons l ls ih =>
      have hl : l.Nodup := h l (by simp)
      have hrest : (cartProd ls).Nodup := ih (fun x hx => h x (by simp [hx]))
      rw [show cartProd (l :: ls) = l.flatMap (fun x => (cartProd ls).map (x :: ·))
        from rfl]
      apply List.nodup_flatMap.mpr
      refine ⟨fun x _ => hrest.map (fun a b hab => by injection hab), ?_⟩
      apply List.Pairwise.imp ?_ hl
      intro a b hab z hza hzb
      rcases List.mem_map.mp hza with ⟨ta, _, rfl⟩
      rcases List.mem_map.mp hzb with ⟨tb, _, htb⟩
      exact hab (by injection htb.symm)

theorem ndindex_nodup (shape : List ℕ) : (ndindex shape).Nodup := by
  apply cartProd_nodup
  intro l hl
  rcases List.mem_map.mp hl with ⟨n, _, rfl⟩
  exact List.nodup_range n

theorem dfieldStep_apply_ne (tc : TransformCollection) (pfun : List ℕ → Vec3)
    (m : List ℕ → Vec3) (x idx : List ℕ) (h : idx ≠ x) :
    dfieldStep tc pfun m x idx = m idx := by
  unfold dfieldStep writePx
  cases tc.transform_point (pfun x) <;> simp [h]

theorem foldl_dfieldStep_not_mem (tc : TransformCollection) (pfun : List ℕ → Vec3)
    (l : List (List ℕ)) (m : List ℕ → Vec3) (idx : List ℕ) (hidx : idx ∉ l) :
    l.foldl (dfieldStep tc pfun) m idx = m idx := by
  induction l generalizing m with
  | nil => rfl
  | cons x xs ih =>
      have hne : idx ≠ x ∧ idx ∉ xs := by
        constructor
        · intro heq; exact hidx (by simp [heq])
        · intro hmem; exact hidx (by simp [hmem])
      rw [List.foldl_cons, ih _ hne.2]
      exact dfieldStep_apply_ne tc pfun m x idx hne.1

theorem foldl_dfieldStep_mem (tc : TransformCollection) (pfun : List ℕ → Vec3)
    (l : List (List ℕ)) (m : List ℕ → Vec3) (idx : List ℕ) (hnd : l.Nodup)
    (hidx : idx ∈ l) :
    l.foldl (dfieldStep tc pfun) m idx =
      match tc.transform_point (pfun idx) with
      | .ok q => fun i => q i - pfun idx i
      | .error _ => m idx := by
  induction l generalizing m with
  | nil => cases hidx
  | cons x xs ih =>
      rw [List.foldl_cons]
      rcases List.mem_cons.mp hidx with heq | hmem
      · subst heq
        have hnotmem : idx ∉ xs := (List.nodup_cons.mp hnd).1
        rw [foldl_dfieldStep_not_mem tc pfun xs _ idx hnotmem]
        unfold dfieldStep writePx
        cases h : tc.transform_point (pfun idx) <;> simp [h]
      · have hne : idx ≠ x := by
          intro heq; subst heq; exact (List.nodup_cons.mp hnd).1 hmem
        rw [ih _ (List.nodup_cons.mp hnd).2 hmem]
        cases h : tc.transform_point (pfun idx) <;>
          simp [h, dfieldStep_apply_ne tc pfun m x idx hne]

/-- C7: every voxel of the synthesized displacement field stores
transform_point(p) - p for its physical point p, and a voxel at which the
collection raises its no-coverage error keeps the zero default, the loop
continuing over the remaining voxels without propagating the error. -/
theorem dfield_voxel_values (tc : TransformCollection) (reference : ImageMeta)
    (initial_transform : Vec3 → Vec3) (scale_factors : Vec3) (idx : List ℕ)
    (hmem : idx ∈ ndindex
      (dfieldSizes (dfieldOutputMeta reference initial_transform scale_factors))) :
    (collection_to_deformation_field tc reference initial_transform
        scale_factors).pixels idx =
      match tc.transform_point
          (dfieldPoint (dfieldOutputMeta reference initial_transform scale_factors)
            idx) with
      | .ok q => fun i => q i -
          dfieldPoint (dfieldOutputMeta reference initial_transform scale_factors)
            idx i
      | .error _ => fun _ => 0 := by
  have hpx : (collection_to_deformation_field tc reference initial_transform
      scale_factors).pixels =
      (ndindex (dfieldSizes
          (dfieldOutputMeta reference initial_transform scale_factors))).foldl
        (dfieldStep tc
          (dfieldPoint (dfieldOutputMeta reference initial_transform scale_factors)))
        (fun _ _ => 0) := rfl
  rw [hpx, foldl_dfieldStep_mem tc _ _ _ idx
    (ndindex_nodup
      (dfieldSizes (dfieldOutputMeta reference initial_transform scale_factors)))
    hmem]

end ItkDreg

namespace ItkDreg

set_option maxHeartbeats 2000000 in
/-- Witness for C7: a one-voxel grid over the unit reference image with the
empty collection leaves the zero default at the sole voxel, the coverage
error being swallowed. -/
theorem dfield_voxel_values_witness :
    (collection_to_deformation_field ⟨blend_simple_mean, []⟩
        ⟨identityGeom, ⟨![0, 0, 0], ![1, 1, 1]⟩⟩ (fun p => p) ![1, 1, 1]).pixels
      [0, 0, 0] = fun _ => 0 := by
  have hsizes : dfieldSizes
      (dfieldOutputMeta ⟨identityGeom, ⟨![0, 0, 0], ![1, 1, 1]⟩⟩ (fun p => p)
        ![1, 1, 1]) = [1, 1, 1] := by
    norm_num [dfieldSizes, dfieldOutputMeta, physical_region_to_itk_image,
      image_to_physical_region, block_to_physical_region, image_to_block_region,
      estimate_bounding_box, Arr2x3.minAxis, Arr2x3.maxAxis,
      ImageGeom.contIndexToPhysical, mat3MulVec, Fin.sum_univ_three,
      ImageRegion3.upperIndex, argmax3, pyInt, identityGeom,
      Matrix.vecHead, Matrix.vecTail, abs_eq_max_neg, max_def, min_def]
  have hmem : [0, 0, 0] ∈ ndindex
      (dfieldSizes (dfieldOutputMeta ⟨identityGeom, ⟨![0, 0, 0], ![1, 1, 1]⟩⟩
        (fun p => p) ![1, 1, 1])) := by
    rw [hsizes]; decide
  have h := dfield_voxel_values ⟨blend_simple_mean, []⟩
    ⟨identityGeom, ⟨![0, 0, 0], ![1, 1, 1]⟩⟩ (fun p => p) ![1, 1, 1] [0, 0, 0] hmem
  rw [h]
  rfl

end ItkDreg

namespace ItkDreg

theorem cartProd_length {α : Type} (ls : List (List α)) :
    (cartProd ls).length = (ls.map List.length).prod := by
  induction ls with
  | nil => rfl
  | cons l ls ih =>
      rw [show cartProd (l :: ls) =
        l.flatMap (fun x => (cartProd ls).map (x :: ·)) from rfl]
      rw [List.length_flatMap]
      have hconst : List.map (List.length ∘ fun x => (cartProd ls).map (x :: ·)) l =
          List.replicate l.length (cartProd ls).length := by
        rw [← List.map_const']
        apply List.map_congr_left
        intro a _
        simp
      rw [hconst, List.sum_replicate, smul_eq_mul, List.map_cons, List.prod_cons, ih]

theorem getElem?_flatMap_const {α β : Type} (xs : List α) (F : α → List β) (m : ℕ)
    (hm : ∀ x, (F x).length = m) (hm0 : 0 < m) :
    ∀ k : ℕ, (xs.flatMap F)[k]? = (xs[k / m]?).bind (fun x => (F x)[k % m]?) := by
  induction xs with
  | nil => intro k; simp
  | cons x xs ih =>
      intro k
      rw [List.flatMap_cons]
      by_cases hk : k < m
      · rw [List.getElem?_append_left (by rw [hm x]; exact hk)]
        rw [Nat.div_eq_of_lt hk, Nat.mod_eq_of_lt hk]
        simp
      · push_neg at hk
        rw [List.getElem?_append_right (by rw [hm x]; exact hk)]
        rw [hm x, ih (k - m)]
        have hdiv : k / m = (k - m) / m + 1 := Nat.div_eq_sub_div hm0 hk
        have hmod : k % m = (k - m) % m := Nat.mod_eq_sub_mod hk
        rw [hdiv, hmod]
        simp

theorem ndindex_length (shape : List ℕ) : (ndindex shape).length = shape.prod := by
  rw [ndindex, cartProd_length, List.map_map]
  have : List.length ∘ List.range = id := by
    funext n
    simp
  rw [this, List.map_id]

theorem ndindex_getElem? (shape : List ℕ) :
    ∀ k : ℕ, k < shape.prod → (ndindex shape)[k]? = some (unrank shape k) := by
  induction shape with
  | nil =>
      intro k hk
      have : k = 0 := Nat.lt_one_iff.mp (by simpa using hk)
      subst this
      rfl
  | cons n rest ih =>
      intro k hk
      rw [List.prod_cons] at hk
      have hm0 : 0 < rest.prod := by
        rcases Nat.eq_zero_or_pos rest.prod with h | h
        · rw [h, Nat.mul_zero] at hk; exact absurd hk (Nat.not_lt_zero k)
        · exact h
      have hm : ∀ x : ℕ, ((ndindex rest).map (x :: ·)).length = rest.prod := by
        intro x
        rw [List.length_map, ndindex_length]
      rw [show ndindex (n :: rest) =
        (List.range n).flatMap (fun x => (ndindex rest).map (x :: ·)) from rfl]
      rw [getElem?_flatMap_const _ _ rest.prod hm hm0 k]
      have hdivlt : k / rest.prod < n := (Nat.div_lt_iff_lt_mul hm0).mpr hk
      rw [List.getElem?_range hdivlt]
      rw [Option.some_bind]
      rw [List.getElem?_map, ih (k % rest.prod) (Nat.mod_lt _ hm0)]
      rfl

theorem zipWith_slice_shift (x : ℕ) (l bs : List ℕ) :
    List.zipWith (fun a b => (x + a, x + a + b)) l bs =
      (List.zipWith (fun s d => (s, s + d)) l bs).map
        (fun p => (x + p.1, x + p.2)) := by
  induction l generalizing bs with
  | nil => simp
  | cons a l ih =>
      cases bs with
      | nil => simp
      | cons b bs =>
          simp only [List.zipWith_cons_cons, List.map_cons]
          congr 1
          · simp [Nat.add_assoc]
          · exact ih bs

theorem axisSlices_eq (bds : List ℕ) :
    axisSlices bds = (List.range bds.length).map (sliceAt bds) := by
  induction bds with
  | nil => rfl
  | cons x xs ih =>
      rw [axisSlices, show cumsum0 (x :: xs) = 0 :: (cumsum0 xs).map (x + ·) from rfl]
      rw [List.zipWith_cons_cons, List.zipWith_map_left]
      have hshift : List.zipWith (fun a b => ((x + a : ℕ), x + a + b)) (cumsum0 xs) xs =
          (axisSlices xs).map (fun p => (x + p.1, x + p.2)) := by
        rw [axisSlices]
        exact zipWith_slice_shift x (cumsum0 xs) xs
      have hfn : (fun (a : ℕ) (b : ℕ) => ((0 : ℕ) + a, 0 + a + b)) =
          (fun a b => (a, a + b)) := by
        funext a b
        simp
      rw [show (List.zipWith (fun a b => (x + a, x + a + b)) (cumsum0 xs) xs) =
        (axisSlices xs).map (fun p => (x + p.1, x + p.2)) from hshift]
      rw [ih, List.map_map]
      rw [show (x :: xs).length = xs.length + 1 from rfl, List.range_succ_eq_map,
        List.map_cons, List.map_map]
      congr 1; simp [sliceAt]; intro a ha; omega

theorem zip_flatMap_same {α β γ : Type} (xs : List α) (F : α → List β)
    (G : α → List γ) (h : ∀ x, (F x).length = (G x).length) :
    (xs.flatMap F).zip (xs.flatMap G) = xs.flatMap (fun x => (F x).zip (G x)) := by
  induction xs with
  | nil => rfl
  | cons x xs ih =>
      rw [List.flatMap_cons, List.flatMap_cons, List.flatMap_cons,
        List.zip_append (h x), ih]

theorem zip_cartProd_map {α β γ : Type} (l : List α) (f : α → List β)
    (h : α → β → γ) :
    (cartProd (l.map f)).zip
        (cartProd (l.map (fun a => (f a).map (h a)))) =
      (cartProd (l.map f)).map (fun c => (c, List.zipWith h l c)) := by
  induction l with
  | nil => rfl
  | cons a l ih =>
      rw [List.map_cons, List.map_cons]
      rw [show cartProd (f a :: l.map f) =
        (f a).flatMap (fun x => (cartProd (l.map f)).map (x :: ·)) from rfl]
      rw [show cartProd ((f a).map (h a) :: l.map (fun a => (f a).map (h a))) =
        ((f a).map (h a)).flatMap
          (fun y => (cartProd (l.map (fun a => (f a).map (h a)))).map (y :: ·))
        from rfl]
      rw [List.flatMap_map]
      rw [zip_flatMap_same (f a)
        (fun x => (cartProd (l.map f)).map (x :: ·))
        (fun x => (cartProd (l.map (fun a => (f a).map (h a)))).map (h a x :: ·))
        (by
          intro x
          rw [List.length_map, List.length_map, cartProd_length, cartProd_length,
            List.map_map, List.map_map]
          congr 1
          apply List.map_congr_left
          intro b _
          simp)]
      rw [List.map_flatMap]
      congr 1
      funext x
      rw [List.zip_map, ih, List.map_map, List.map_map]
      congr 1

theorem iterate_block_info_ndindex (chunks : List (List ℕ)) :
    iterate_block_info chunks =
      (ndindex (chunks.map List.length)).map
        (fun c => ⟨c, List.zipWith sliceAt chunks c⟩) := by
  have hnd : ndindex (chunks.map List.length) =
      cartProd (chunks.map (fun bds => List.range bds.length)) := by
    rw [ndindex, List.map_map]
    rfl
  have hsl : slices_from_chunks chunks =
      cartProd (chunks.map
        (fun bds => (List.range bds.length).map (sliceAt bds))) := by
    rw [slices_from_chunks]
    congr 1
    apply List.map_congr_left
    intro bds _
    exact axisSlices_eq bds
  rw [iterate_block_info, hnd, hsl,
    zip_cartProd_map chunks (fun bds => List.range bds.length) sliceAt,
    List.map_map]
  rfl

/-- C8: the block partition enumeration yields exactly the product of the
per-axis chunk counts, and the k-th descriptor carries the mixed-radix
row-major chunk index of k (last axis fastest) with the voxel slice whose
start on each axis is the total size of the preceding chunks: the enumeration
is a fixed, restartable list fully determined by the chunk structure. -/
theorem iterate_block_info_spec (chunks : List (List ℕ)) :
    (iterate_block_info chunks).length = (chunks.map List.length).prod ∧
    (∀ k : ℕ, k < (chunks.map List.length).prod →
      (iterate_block_info chunks)[k]? =
        some ⟨unrank (chunks.map List.length) k,
              List.zipWith sliceAt chunks (unrank (chunks.map List.length) k)⟩) := by
  constructor
  · rw [iterate_block_info_ndindex, List.length_map, ndindex_length]
  · intro k hk
    rw [iterate_block_info_ndindex, List.getElem?_map, ndindex_getElem? _ k hk]
    rfl

/-- Witness for C8 on the chunk structure [[2,1],[3]]: three blocks, the
second of which is chunk (0,1) with slices [(0,2),(3,3)]. -/
theorem iterate_block_info_spec_witness :
    (iterate_block_info [[2, 1], [3]])[1]? =
      some ⟨unrank ([[2, 1], [3]].map List.length) 1,
            List.zipWith sliceAt [[2, 1], [3]]
              (unrank ([[2, 1], [3]].map List.length) 1)⟩ :=
  (iterate_block_info_spec [[2, 1], [3]]).2 1 (by decide)

end ItkDreg
